import Mathlib

/-!
Shallow embedding of the conversation-engine core of `tlsfuzzer/messages.py`
(node commands, generator post-send effects and the mutation / fault-injection
combinators) together with proofs about the embedded operations.

Conventions of the embedding:
* Python `bytearray` values are `List Nat`.
* Python dicts are association lists `List (String × _)` (keys unique in any
  state the program builds; the dict operations are modelled directly).
* Python code that can raise (`[]` lookup on a dict, out-of-range indexing,
  `pop` from an empty list, assertions) is modelled with `Option`, `none`
  standing for the raised exception.
* Calls into the external tlslite crypto collaborator
  (`calcMasterSecret`, `calcExtendedMasterSecret`, `derive_secret`) are kept
  symbolic: the embedding records the exact arguments the code passes.
-/

/-- Python dict read `d[k]`: value of the first matching key, `none` when the
key is absent (a `KeyError` in the source). -/
def dictGet {α : Type} (d : List (String × α)) (k : String) : Option α :=
  match d with
  | [] => none
  | kv :: rest => if kv.1 = k then some kv.2 else dictGet rest k

/-- Python dict write `d[k] = v`: replace the value of an existing key in
place (dict keys are unique, so the first occurrence is the occurrence),
append the pair otherwise. -/
def dictSet {α : Type} : List (String × α) → String → α → List (String × α)
  | [], k, v => [(k, v)]
  | kv :: rest, k, v =>
    if kv.1 = k then (k, v) :: rest else kv :: dictSet rest k v

/-- Python `d.pop(k, None)`: drop the entry for `k` when present. -/
def dictPop {α : Type} (d : List (String × α)) (k : String) :
    List (String × α) :=
  d.filter (fun kv => kv.1 != k)

/-- Python sequence indexing for `bytearray`: a non-negative index must be
below the length, a negative index `k` counts from the end as `len + k`;
anything else is an `IndexError` (`none`). -/
def pyIdx (len : Nat) (pos : Int) : Option Nat :=
  if 0 ≤ pos then
    if pos < (len : Int) then some pos.toNat else none
  else
    if 0 ≤ (len : Int) + pos then some ((len : Int) + pos).toNat else none

/-- The substitution loop of `substitute_and_xor`:
`for pos in substitutions: data[pos] = substitutions[pos]`. -/
def applySubs (data : List Nat) : List (Int × Nat) → Option (List Nat)
  | [] => some data
  | (p, v) :: rest =>
    match pyIdx data.length p with
    | none => none
    | some j => applySubs (data.set j v) rest

/-- The xor loop of `substitute_and_xor`:
`for pos in xors: data[pos] ^= xors[pos]`. -/
def applyXors (data : List Nat) : List (Int × Nat) → Option (List Nat)
  | [] => some data
  | (p, m) :: rest =>
    match pyIdx data.length p with
    | none => none
    | some j => applyXors (data.set j (Nat.xor (data.getD j 0) m)) rest

/-- `substitute_and_xor(data, substitutions, xors)` from `messages.py`:
apply the substitution dict, then the xor dict; `None` dicts are skipped. -/
def substitute_and_xor (data : List Nat)
    (substitutions xors : Option (List (Int × Nat))) : Option (List Nat) :=
  match (match substitutions with
         | none => some data
         | some s => applySubs data s) with
  | none => none
  | some d1 =>
    match xors with
    | none => some d1
    | some x => applyXors d1 x

/-- Value of the last dict entry whose offset resolves (via `pyIdx`) to the
absolute index `j`; later entries overwrite earlier ones, as sequential
assignment does. -/
def lookupIdx (len : Nat) (j : Nat) : List (Int × Nat) → Option Nat
  | [] => none
  | (p, v) :: rest =>
    match lookupIdx len j rest with
    | some w => some w
    | none => if pyIdx len p = some j then some v else none

/-- Offsets of a mutation dict resolved to absolute indices. -/
def resolvedIdxs (len : Nat) (entries : List (Int × Nat)) : List Nat :=
  entries.filterMap (fun pv => pyIdx len pv.1)

/-- `div_ceil` from `messages.py`. -/
def div_ceil (divident divisor : Nat) : Nat :=
  divident / divisor + (if divident % divisor ≠ 0 then 1 else 0)

/-- Python falsiness of an optional mutation dict: `None` or `{}`. -/
def pyEmptyDict (d : Option (List (Int × Nat))) : Bool :=
  match d with
  | none => true
  | some l => l.isEmpty

/-- Byte behaviour of the `new_write` closure installed by `fuzz_message`:
the wrapped message writes its serialization, then the mutation dicts are
applied to it. -/
def fuzz_message_new_write (data : List Nat)
    (substitutions xors : Option (List (Int × Nat))) : Option (List Nat) :=
  substitute_and_xor data substitutions xors

/-- Byte behaviour of the `new_calculate_mac` closure installed by `fuzz_mac`
on `msg_sock.calculateMAC`: the original MAC bytes are computed, then the
mutation dicts are applied to them. -/
def fuzz_mac_new_calculate_mac (mac_bytes : List Nat)
    (substitutions xors : Option (List (Int × Nat))) : Option (List Nat) :=
  substitute_and_xor mac_bytes substitutions xors

/-- Byte behaviour of the `new_add_padding` closure installed by
`fuzz_padding` on `msg_sock.addPadding`. `old_add_padding` is the original
method of the external record layer. With `min_length is None` the original
padding is recovered from the tail of the padded data (the last byte holds
the padding length); otherwise a fresh padding of computed length is built.
The mutation dicts are applied to the padding only. -/
def fuzz_padding_new_add_padding (old_add_padding : List Nat → List Nat)
    (blockSize : Nat) (min_length : Option Nat)
    (substitutions xors : Option (List (Int × Nat)))
    (data : List Nat) : Option (List Nat) :=
  match min_length with
  | none =>
    let padded_data := old_add_padding data
    match padded_data.getLast? with
    | none => none
    | some padding_length =>
      let padding := padded_data.drop (padded_data.length - (padding_length + 1))
      (substitute_and_xor padding substitutions xors).map (fun p => data ++ p)
  | some ml =>
    let padding_length :=
      div_ceil (data.length + ml) blockSize * blockSize - data.length
    if padding_length > 256 then none
    else
      (substitute_and_xor (List.replicate padding_length (padding_length - 1))
        substitutions xors).map (fun p => data ++ p)

/-- Byte behaviour of the `new_add_padding` closure installed by
`fuzz_plaintext`: pad via the original method, then apply the mutation dicts
to the whole plaintext (IV, data, MAC and padding). -/
def fuzz_plaintext_new_add_padding (old_add_padding : List Nat → List Nat)
    (substitutions xors : Option (List (Int × Nat)))
    (data : List Nat) : Option (List Nat) :=
  substitute_and_xor (old_add_padding data) substitutions xors

/-- Byte behaviour of the `new_send` closure installed by
`fuzz_encrypted_message` on `msg_sock._recordSocket.send`: the written
record data is mutated before being handed to the original send. -/
def fuzz_encrypted_message_new_send (message_data : List Nat)
    (substitutions xors : Option (List (Int × Nat))) : Option (List Nat) :=
  substitute_and_xor message_data substitutions xors

/-- Byte behaviour of the `new_addPKCS1Padding` closure installed by
`fuzz_pkcs1_padding` on the RSA key: split the padded value at
`numBytes(n) - len(bytes)` and mutate only the padding prefix. -/
def fuzz_pkcs1_new_addPKCS1Padding (old_add_padding : List Nat → List Nat)
    (numBytes_n : Nat) (substitutions xors : Option (List (Int × Nat)))
    (bytes : List Nat) : Option (List Nat) :=
  let ret := old_add_padding bytes
  let pad_length := numBytes_n - bytes.length
  (substitute_and_xor (ret.take pad_length) substitutions xors).map
    (fun pad => pad ++ ret.drop pad_length)

/-- Resulting `_addPKCS1Padding` behaviour of a key passed through
`fuzz_pkcs1_padding`: with both dicts falsy the key is returned unchanged
(the guard at the top of the function), otherwise the patched closure
is installed. -/
def fuzz_pkcs1_padding (old_add_padding : List Nat → List Nat)
    (numBytes_n : Nat) (substitutions xors : Option (List (Int × Nat))) :
    List Nat → Option (List Nat) :=
  if pyEmptyDict xors && pyEmptyDict substitutions then
    fun bytes => some (old_add_padding bytes)
  else
    fuzz_pkcs1_new_addPKCS1Padding old_add_padding numBytes_n substitutions xors

/-- Identity of a method value held in a `msg_sock` attribute. `base` is an
original (unwrapped) method of the external message socket; the other
constructors are the closures installed by the mutation combinators, each
capturing the method it wrapped. -/
inductive Hook where
  | base (id : Nat)
  | fuzzMACHook (old : Hook)
  | fuzzPaddingHook (old : Hook)
  | fuzzPlaintextHook (old : Hook)
  | replacePlaintextHook (old : Hook)
  | fuzzEncSendHook (old : Hook)
deriving DecidableEq, Repr

/-- The `_recordSocket` collaborator object owned by `msg_sock`; its `send`
attribute is the hook patched by `fuzz_encrypted_message`. -/
structure RecordSocket where
  send : Hook
deriving DecidableEq, Repr

/-- The attributes of `state.msg_sock` touched by the mutation combinators.
`dynAttrs` holds attributes created by `setattr` with a name that is not one
of the real method slots (Python happily stores any string as an attribute
name in the instance dict). -/
structure MsgSock where
  calculateMAC : Hook
  addPadding : Hook
  recordSocket : RecordSocket
  dynAttrs : List (String × Hook)
deriving DecidableEq, Repr

/-- Python `setattr(msg_sock, name, v)`: writing one of the known method
slots replaces the method; any other name only creates an instance
attribute of that literal name. In particular no dotted name can ever reach
into the `_recordSocket` sub-object. -/
def msgSockSetattr (ms : MsgSock) (name : String) (v : Hook) : MsgSock :=
  if name = "calculateMAC" then { ms with calculateMAC := v }
  else if name = "addPadding" then { ms with addPadding := v }
  else { ms with dynAttrs := dictSet ms.dynAttrs name v }

/-- Effect on `msg_sock` of the `new_post_send` hook installed by
`post_send_msg_sock_restore(obj, method_name, old_method_name)`:
`setattr(state.msg_sock, method_name, getattr(obj, old_method_name))`.
`saved` is the method value stored on the generator by its `generate`
wrapper. The original `post_send` that it then calls never touches the
`msg_sock` method slots, so it is dropped from this view. -/
def post_send_msg_sock_restore (method_name : String) (saved : Hook)
    (ms : MsgSock) : MsgSock :=
  msgSockSetattr ms method_name saved

/-- `msg_sock` effect of `fuzz_mac`'s `new_generate`: remember the current
`calculateMAC` on the generator (`self.old_calculate_mac`) and install the
wrapping closure. Returns the patched socket and the saved method. -/
def fuzz_mac_generate (ms : MsgSock) : MsgSock × Hook :=
  ({ ms with calculateMAC := Hook.fuzzMACHook ms.calculateMAC },
   ms.calculateMAC)

/-- `msg_sock` effect of the wrapped `post_send` of a `fuzz_mac` generator:
`post_send_msg_sock_restore(generator, 'calculateMAC', 'old_calculate_mac')`. -/
def fuzz_mac_post_send (saved : Hook) (ms : MsgSock) : MsgSock :=
  post_send_msg_sock_restore "calculateMAC" saved ms

/-- `msg_sock` effect of `fuzz_padding`'s `new_generate`: save and patch
`addPadding`. -/
def fuzz_padding_generate (ms : MsgSock) : MsgSock × Hook :=
  ({ ms with addPadding := Hook.fuzzPaddingHook ms.addPadding },
   ms.addPadding)

/-- Wrapped `post_send` of a `fuzz_padding` generator:
`post_send_msg_sock_restore(generator, 'addPadding', 'old_add_padding')`. -/
def fuzz_padding_post_send (saved : Hook) (ms : MsgSock) : MsgSock :=
  post_send_msg_sock_restore "addPadding" saved ms

/-- `msg_sock` effect of `fuzz_plaintext`'s `new_generate`: save and patch
`addPadding`. -/
def fuzz_plaintext_generate (ms : MsgSock) : MsgSock × Hook :=
  ({ ms with addPadding := Hook.fuzzPlaintextHook ms.addPadding },
   ms.addPadding)

/-- Wrapped `post_send` of a `fuzz_plaintext` generator. -/
def fuzz_plaintext_post_send (saved : Hook) (ms : MsgSock) : MsgSock :=
  post_send_msg_sock_restore "addPadding" saved ms

/-- `msg_sock` effect of `replace_plaintext`'s `new_generate`: save and patch
`addPadding`. -/
def replace_plaintext_generate (ms : MsgSock) : MsgSock × Hook :=
  ({ ms with addPadding := Hook.replacePlaintextHook ms.addPadding },
   ms.addPadding)

/-- Wrapped `post_send` of a `replace_plaintext` generator. -/
def replace_plaintext_post_send (saved : Hook) (ms : MsgSock) : MsgSock :=
  post_send_msg_sock_restore "addPadding" saved ms

/-- `msg_sock` effect of `fuzz_encrypted_message`'s `new_generate`: save
`state.msg_sock._recordSocket.send` on the generator (`self.old_send`) and
patch the record socket's `send`. -/
def fuzz_encrypted_message_generate (ms : MsgSock) : MsgSock × Hook :=
  ({ ms with recordSocket :=
      { send := Hook.fuzzEncSendHook ms.recordSocket.send } },
   ms.recordSocket.send)

/-- Wrapped `post_send` of a `fuzz_encrypted_message` generator:
`post_send_msg_sock_restore(generator, '._recordSocket.send', 'old_send')`,
i.e. `setattr` on `msg_sock` with the literal dotted string. -/
def fuzz_encrypted_message_post_send (saved : Hook) (ms : MsgSock) : MsgSock :=
  post_send_msg_sock_restore "._recordSocket.send" saved ms

/-- Protocol versions are pairs, e.g. `(3, 3)` is TLS 1.2 and `(3, 4)` is
TLS 1.3. -/
abbrev Version := Nat × Nat

/-- Python tuple comparison `a <= b` (lexicographic). -/
def verLE (a b : Version) : Bool :=
  decide (a.1 < b.1) || (decide (a.1 = b.1) && decide (a.2 ≤ b.2))

/-- Python tuple comparison `a >= b` (lexicographic). -/
def verGE (a b : Version) : Bool :=
  verLE b a

/-- Values stored in `ConnectionState.key`. Derivations performed by the
external tlslite collaborator stay symbolic and record the arguments the
code hands over; the transcript-hash argument is the list of handshake
message serializations fed to the running hash. -/
inductive KVal where
  | bytes (b : List Nat)
  | calcMasterSecret (version : Version) (cipher_suite : Nat)
      (premaster : KVal) (client_random server_random : List Nat)
  | calcExtendedMasterSecret (version : Version) (cipher_suite : Nat)
      (premaster : KVal) (handshake_hashes : List (List Nat))
  | deriveSecret (secret : KVal) (label : String)
      (handshake_hashes : List (List Nat)) (prf_name : String)
deriving DecidableEq, Repr

/-- Slice of the `msg_sock` record-layer state read and written by the
generator `post_send` methods. `writeStateChanges` counts the calls to
`changeWriteState` (each call switches writing to the pending cipher state);
`pendingStatesSet` records that `calc_pending_states` ran. -/
structure MsgSockCrypto where
  writeStateChanges : Nat
  encryptThenMAC : Bool
  send_record_limit : Nat
  recordSize : Nat
  pendingStatesSet : Bool
deriving DecidableEq, Repr

/-- Modelled from the spec: the per-connection state tracker (its class
lives outside the reviewed sources; these are exactly the attributes the
operations in `messages.py` read and write). The running transcript hash is
kept as the list of byte strings fed to it, `key` is the key-material dict,
`certificate_verify_handshake_hashes` is the snapshot taken after the
Client Key Exchange (`None` before that). -/
structure ConnectionState where
  version : Version
  cipher : Nat
  client_random : List Nat
  server_random : List Nat
  session_id : List Nat
  resuming : Bool
  extended_master_secret : Bool
  encrypt_then_mac : Bool
  prf_name : String
  handshake_hashes : List (List Nat)
  handshake_messages : List (List Nat)
  certificate_verify_handshake_hashes : Option (List (List Nat))
  key : List (String × KVal)
  msg_sock : MsgSockCrypto
  our_record_size_limit : Nat
  peer_record_size_limit : Nat
deriving DecidableEq, Repr

/-- `msg_sock.changeWriteState()`: switch the write side of the record
layer to the pending cipher state. -/
def changeWriteState (ms : MsgSockCrypto) : MsgSockCrypto :=
  { ms with writeStateChanges := ms.writeStateChanges + 1 }

/-- Modelled from the spec: `calc_pending_states(status)` from the
`handshake_helpers` collaborator (not among the reviewed sources) derives
the pending cipher states of `status.msg_sock` from the master secret and
randoms. -/
def calc_pending_states (st : ConnectionState) : ConnectionState :=
  { st with msg_sock := { st.msg_sock with pendingStatesSet := true } }

/-- `HandshakeProtocolMessageGenerator.post_send`: feed the serialized
message to the running handshake hash and log the message. `msg_bytes` is
`self.msg.write()`. -/
def HandshakeProtocolMessageGenerator_post_send (msg_bytes : List Nat)
    (st : ConnectionState) : ConnectionState :=
  { st with
    handshake_hashes := st.handshake_hashes ++ [msg_bytes],
    handshake_messages := st.handshake_messages ++ [msg_bytes] }

/-- `ClientKeyExchangeGenerator.post_send`: run the handshake-hash update of
the superclass, then snapshot the hashes (the transcript up to and including
the Client Key Exchange) for the extended-master-secret computation. -/
def ClientKeyExchangeGenerator_post_send (msg_bytes : List Nat)
    (st : ConnectionState) : ConnectionState :=
  let st1 := HandshakeProtocolMessageGenerator_post_send msg_bytes st
  { st1 with certificate_verify_handshake_hashes := some st1.handshake_hashes }

/-- Transcript-hash argument chosen by `ChangeCipherSpecGenerator.post_send`
for the extended master secret: the snapshot taken after the Client Key
Exchange when one exists, the current hashes otherwise. -/
def ccsSessionHash (st : ConnectionState) : List (List Nat) :=
  match st.certificate_verify_handshake_hashes with
  | some hh => hh
  | none => st.handshake_hashes

/-- Tail of `ChangeCipherSpecGenerator.post_send` shared by the resuming and
non-resuming paths: `changeWriteState`, then adopt the peer record-size
limit when it is non-zero (Python truthiness of the integer). -/
def ccsFinish (st : ConnectionState) : ConnectionState :=
  let st3 := { st with msg_sock := changeWriteState st.msg_sock }
  if st3.peer_record_size_limit ≠ 0 then
    { st3 with msg_sock :=
        { st3.msg_sock with
          send_record_limit := st3.peer_record_size_limit,
          recordSize := st3.peer_record_size_limit } }
  else st3

/-- `ChangeCipherSpecGenerator.post_send(status)`. `ems_param` and `fake`
are the constructor arguments `extended_master_secret` and `fake`; a `none`
`ems_param` falls back to the negotiated flag on the state. In TLS 1.3 or
for a fake CCS nothing happens. Otherwise, unless resuming, the master
secret is computed (`KeyError` when `premaster_secret` is absent) and the
pending states are derived; finally the write state switches. -/
def ChangeCipherSpecGenerator_post_send (ems_param : Option Bool)
    (fake : Bool) (st : ConnectionState) : Option ConnectionState :=
  if verGE st.version (3, 4) || fake then some st
  else
    let st1 := { st with msg_sock :=
        { st.msg_sock with encryptThenMAC := st.encrypt_then_mac } }
    let ems := ems_param.getD st1.extended_master_secret
    if st1.resuming then some (ccsFinish st1)
    else
      match dictGet st1.key "premaster_secret" with
      | none => none
      | some pms =>
        let master_secret :=
          if ems then
            KVal.calcExtendedMasterSecret st1.version st1.cipher pms
              (ccsSessionHash st1)
          else
            KVal.calcMasterSecret st1.version st1.cipher pms
              st1.client_random st1.server_random
        some (ccsFinish (calc_pending_states
          { st1 with key := dictSet st1.key "master_secret" master_secret }))

/-- `FinishedGenerator.post_send(status)`: superclass hash update, clear the
`resuming` flag, and — only above TLS 1.2 — switch the write state to the
application traffic keys and derive and store the resumption master secret
(`KeyError` when `master secret` is absent). -/
def FinishedGenerator_post_send (msg_bytes : List Nat)
    (st : ConnectionState) : Option ConnectionState :=
  let st1 := HandshakeProtocolMessageGenerator_post_send msg_bytes st
  let st2 := { st1 with resuming := false }
  if verLE st2.version (3, 3) then some st2
  else
    let st3 := { st2 with msg_sock := changeWriteState st2.msg_sock }
    match dictGet st3.key "master secret" with
    | none => none
    | some secret =>
      some { st3 with key :=
        (dictSet st3.key "resumption master secret"
          (KVal.deriveSecret secret "res master" st3.handshake_hashes
            st3.prf_name)) }

/-- `ResetHandshakeHashes.process(state)`: fresh handshake hashes, drop the
`PSK secret` and `DH shared secret` entries, reset both record-size limits
to `2 ** 14`. -/
def ResetHandshakeHashes_process (st : ConnectionState) : ConnectionState :=
  { st with
    handshake_hashes := [],
    key := dictPop (dictPop st.key "PSK secret") "DH shared secret",
    our_record_size_limit := 2 ^ 14,
    peer_record_size_limit := 2 ^ 14 }

/-- Value appended by `CopyVariables.process` for one requested name: the
three special names read connection attributes, every other name is looked
up in `state.key`; `none` is the `ValueError` raised for an undefined
key-material name. -/
def copyVarValue (st : ConnectionState) (name : String) : Option KVal :=
  if name = "ClientHello.random" then some (KVal.bytes st.client_random)
  else if name = "ServerHello.random" then some (KVal.bytes st.server_random)
  else if name = "ServerHello.session_id" then some (KVal.bytes st.session_id)
  else dictGet st.key name

/-- `CopyVariables.process(state)` over the requested names in iteration
order: the values appended to the log arrays, or `none` when a lookup of an
undefined key-material name raises `ValueError`. -/
def CopyVariables_process (st : ConnectionState) :
    List String → Option (List KVal)
  | [] => some []
  | name :: rest =>
    match copyVarValue st name with
    | none => none
    | some v => (CopyVariables_process st rest).map (fun vs => v :: vs)

/-- Constructor arguments of `ClientKeyExchangeGenerator` relevant to the
mutually exclusive `p_as_share` and `p_1_as_share` flags. -/
structure ClientKeyExchangeGeneratorCfg where
  premaster_secret : List Nat
  p_as_share : Bool
  p_1_as_share : Bool
deriving DecidableEq, Repr

/-- `ClientKeyExchangeGenerator.__init__`: a missing premaster secret
defaults to 48 zero bytes; setting both `p_as_share` and `p_1_as_share`
raises `ValueError` before the object is ever usable. -/
def ClientKeyExchangeGenerator_init (premaster_secret : Option (List Nat))
    (p_as_share p_1_as_share : Bool) :
    Option ClientKeyExchangeGeneratorCfg :=
  if p_as_share && p_1_as_share then none
  else some
    { premaster_secret := premaster_secret.getD (List.replicate 48 0),
      p_as_share := p_as_share,
      p_1_as_share := p_1_as_share }

/-- A record-layer message: content type plus opaque payload
(`tlslite Message`; its `write()` returns the payload). -/
structure PyMessage where
  contentType : Nat
  data : List Nat
deriving DecidableEq, Repr

/-- Fuel-driven body of the fragmentation loop of `split_message`
(`while len(data) > 0: append data[:size]; data = data[size:]`). The fuel
equals the data length, which suffices for any positive `size`; for
`size = 0` the source loop does not terminate, so the model is only
meaningful for positive sizes. -/
def splitChunksGo (fuel : Nat) (size : Nat) (data : List Nat) :
    List (List Nat) :=
  match fuel with
  | 0 => []
  | f + 1 =>
    if data = [] then []
    else data.take size :: splitChunksGo f size (data.drop size)

/-- The consecutive `size`-byte chunks of `data` produced by the
`split_message` loop. -/
def splitChunks (size : Nat) (data : List Nat) : List (List Nat) :=
  splitChunksGo data.length size data

/-- `new_generate` installed by `split_message(generator, fragment_list,
size)`: append one message per chunk of the wrapped generator's
serialization to `fragment_list`, then `pop(0)` (an `IndexError`, i.e.
`none`, when there is nothing to pop). Returns the popped message and the
final contents of `fragment_list`. -/
def split_message_generate (size : Nat) (msg : PyMessage)
    (fragment_list : List PyMessage) : Option (PyMessage × List PyMessage) :=
  let frags := fragment_list ++
    (splitChunks size msg.data).map (fun c => PyMessage.mk msg.contentType c)
  match frags with
  | [] => none
  | f :: rest => some (f, rest)

/-- Concatenation loop of `FlushMessageList.generate`: every further
fragment must carry the same content type (`assert`), its payload is
appended. -/
def flushGo (content_type : Nat) (acc : List Nat) :
    List PyMessage → Option (List Nat)
  | [] => some acc
  | f :: rest =>
    if f.contentType = content_type then flushGo content_type (acc ++ f.data) rest
    else none

/-- `FlushMessageList.generate(state)`: pop the first fragment (an
`IndexError` on an empty list), then append every remaining fragment of the
same content type into one message. -/
def flushMessageList_generate (fragment_list : List PyMessage) :
    Option PyMessage :=
  match fragment_list with
  | [] => none
  | m :: rest =>
    (flushGo m.contentType m.data rest).map
      (fun d => PyMessage.mk m.contentType d)

/-- Concrete `msg_sock` used to evaluate the hook-patching combinators:
three distinct original methods and no dynamic attributes. -/
def exMsgSock : MsgSock :=
  { calculateMAC := Hook.base 0,
    addPadding := Hook.base 1,
    recordSocket := { send := Hook.base 2 },
    dynAttrs := [] }

/-- Concrete key-material dict used by several concrete evaluations. -/
def exKey : List (String × KVal) :=
  [("premaster_secret", KVal.bytes [9, 9]),
   ("DH shared secret", KVal.bytes [7]),
   ("PSK secret", KVal.bytes [8]),
   ("resumption master secret", KVal.bytes [5])]

/-- Concrete connection state used by the concrete evaluations: a plain
TLS 1.2 connection that is not resuming. -/
def exState : ConnectionState :=
  { version := (3, 3),
    cipher := 47,
    client_random := List.replicate 32 1,
    server_random := List.replicate 32 2,
    session_id := [3],
    resuming := false,
    extended_master_secret := true,
    encrypt_then_mac := false,
    prf_name := "sha256",
    handshake_hashes := [[1]],
    handshake_messages := [[1]],
    certificate_verify_handshake_hashes := none,
    key := exKey,
    msg_sock :=
      { writeStateChanges := 0, encryptThenMAC := false,
        send_record_limit := 0, recordSize := 0, pendingStatesSet := false },
    our_record_size_limit := 16384,
    peer_record_size_limit := 16384 }

/-- Concrete TLS 1.3 connection state used by the concrete evaluations. -/
def exState13 : ConnectionState :=
  { exState with
    version := (3, 4),
    key := [("master secret", KVal.bytes [6])] }

theorem dictGet_dictSet_self {α : Type} (d : List (String × α)) (k : String)
    (v : α) : dictGet (dictSet d k v) k = some v := by
  induction d with
  | nil => simp [dictSet, dictGet]
  | cons kv rest ih =>
    by_cases h : kv.1 = k
    · simp [dictSet, dictGet, h]
    · simp [dictSet, dictGet, h, ih]

theorem dictGet_dictPop_self {α : Type} (d : List (String × α)) (k : String) :
    dictGet (dictPop d k) k = none := by
  induction d with
  | nil => rfl
  | cons kv rest ih =>
    by_cases h : kv.1 = k
    · simpa [dictPop, List.filter_cons, h] using ih
    · simpa [dictPop, List.filter_cons, h, dictGet] using ih

theorem dictGet_dictPop_other {α : Type} (d : List (String × α))
    (k k2 : String) (h : k2 ≠ k) : dictGet (dictPop d k) k2 = dictGet d k2 := by
  induction d with
  | nil => rfl
  | cons kv rest ih =>
    by_cases hk : kv.1 = k
    · have h2 : ¬ (k = k2) := fun hc => h hc.symm
      simpa [dictPop, List.filter_cons, hk, dictGet, h2] using ih
    · by_cases hk2 : kv.1 = k2
      · simp [dictPop, List.filter_cons, hk, dictGet, hk2, h]
      · simpa [dictPop, List.filter_cons, hk, dictGet, hk2] using ih

theorem list_get?_set (l : List Nat) (i j a : Nat) :
    (l.set i a).get? j =
      if i = j ∧ j < l.length then some a else l.get? j := by
  induction l generalizing i j with
  | nil => simp
  | cons x xs ih =>
    cases i with
    | zero =>
      cases j with
      | zero => simp
      | succ k => simp
    | succ n =>
      cases j with
      | zero => simp
      | succ k =>
        have := ih n k
        simp only [List.set, List.get?, List.length_cons]
        rw [this]
        by_cases hc : n = k ∧ k < xs.length
        · simp [hc.1, hc.2, Nat.succ_lt_succ hc.2]
        · have : ¬ (n + 1 = k + 1 ∧ k + 1 < xs.length + 1) := by
            intro hc2
            exact hc ⟨Nat.succ_injective hc2.1, Nat.lt_of_succ_lt_succ hc2.2⟩
          simp [hc, this]

theorem list_getD_eq (l : List Nat) (j : Nat) :
    l.getD j 0 = (l.get? j).getD 0 := by
  induction l generalizing j with
  | nil => cases j <;> rfl
  | cons x xs ih => cases j with
    | zero => rfl
    | succ k => exact ih k

theorem pyIdx_lt {len : Nat} {p : Int} {j : Nat}
    (h : pyIdx len p = some j) : j < len := by
  unfold pyIdx at h
  split_ifs at h with h1 h2 h3
  · obtain rfl := Option.some.inj h; omega
  · obtain rfl := Option.some.inj h; omega

theorem pyIdx_neg {len : Nat} {k : Int} (h1 : -(len : Int) ≤ k)
    (h2 : k < 0) : pyIdx len k = some ((len : Int) + k).toNat := by
  unfold pyIdx
  have hn : ¬ (0 ≤ k) := by omega
  have hp : 0 ≤ (len : Int) + k := by omega
  simp [hn, hp]

theorem lookupIdx_none_of_not_mem (len j : Nat) (l : List (Int × Nat))
    (h : j ∉ resolvedIdxs len l) : lookupIdx len j l = none := by
  induction l with
  | nil => rfl
  | cons pv rest ih =>
    simp only [resolvedIdxs, List.filterMap_cons] at h
    cases hpy : pyIdx len pv.1 with
    | none =>
      rw [hpy] at h
      simp only [lookupIdx, ih h]
      simp [hpy]
    | some j0 =>
      rw [hpy] at h
      simp only [List.mem_cons, not_or] at h
      simp only [lookupIdx, ih h.2, hpy]
      have hne : ¬ (j0 = j) := fun hc => h.1 hc.symm
      simp [hne]

theorem lookupIdx_mem {len j : Nat} {l : List (Int × Nat)} {v : Nat}
    (h : lookupIdx len j l = some v) : j ∈ resolvedIdxs len l := by
  induction l generalizing v with
  | nil => exact absurd h (by simp [lookupIdx])
  | cons pv rest ih =>
    simp only [lookupIdx] at h
    cases hlk : lookupIdx len j rest with
    | some w =>
      have := ih hlk
      simp only [resolvedIdxs, List.filterMap_cons]
      cases hpy : pyIdx len pv.1 with
      | none => exact this
      | some j0 => exact List.mem_cons_of_mem _ this
    | none =>
      rw [hlk] at h
      by_cases hpy : pyIdx len pv.1 = some j
      · simp only [resolvedIdxs, List.filterMap_cons, hpy]
        exact List.mem_cons_self _ _
      · simp [hpy] at h

theorem applySubs_spec (subs : List (Int × Nat)) : ∀ (data : List Nat),
    (∀ pv ∈ subs, pyIdx data.length pv.1 ≠ none) →
    ∃ out, applySubs data subs = some out ∧ out.length = data.length ∧
      ∀ j, j < data.length →
        out.get? j = (match lookupIdx data.length j subs with
          | some v => some v
          | none => data.get? j) := by
  induction subs with
  | nil =>
    intro data _
    exact ⟨data, rfl, rfl, by intro j _; simp [lookupIdx]⟩
  | cons pv rest ih =>
    intro data hin
    obtain ⟨p, v⟩ := pv
    have hp : pyIdx data.length p ≠ none := hin (p, v) (by simp)
    cases hpy : pyIdx data.length p with
    | none => exact absurd hpy hp
    | some j0 =>
      have hj0 : j0 < data.length := pyIdx_lt hpy
      have hlen : (data.set j0 v).length = data.length := by simp
      have hin2 : ∀ pv2 ∈ rest, pyIdx (data.set j0 v).length pv2.1 ≠ none := by
        rw [hlen]
        exact fun pv2 hm => hin pv2 (List.mem_cons_of_mem _ hm)
      obtain ⟨out, hout, holen, hojs⟩ := ih (data.set j0 v) hin2
      refine ⟨out, ?_, ?_, ?_⟩
      · simp only [applySubs, hpy]
        exact hout
      · rw [holen, hlen]
      · intro j hj
        have hj2 : j < (data.set j0 v).length := by rw [hlen]; exact hj
        have hpt := hojs j hj2
        rw [hlen] at hpt
        simp only [lookupIdx]
        cases hlk : lookupIdx data.length j rest with
        | some w => rw [hlk] at hpt; simpa using hpt
        | none =>
          rw [hlk] at hpt
          rw [hpt, list_get?_set]
          by_cases hjj : j0 = j
          · subst hjj
            simp [hpy, hj]
          · have hne : ¬ (pyIdx data.length p = some j) := by
              rw [hpy]
              exact fun hc => hjj (Option.some.inj hc)
            simp [hjj, hne]

theorem splitChunksGo_nil (fuel size : Nat) :
    splitChunksGo fuel size [] = [] := by
  cases fuel <;> simp [splitChunksGo]

theorem splitChunksGo_fuel (size : Nat) (hs : 0 < size) :
    ∀ (n : Nat) (d : List Nat), d.length ≤ n → ∀ fuel, d.length ≤ fuel →
    splitChunksGo fuel size d = splitChunksGo d.length size d := by
  intro n
  induction n with
  | zero =>
    intro d hd fuel _
    have hdn : d = [] := List.length_eq_zero.mp (Nat.le_zero.mp hd)
    subst hdn
    rw [splitChunksGo_nil, splitChunksGo_nil]
  | succ n ih =>
    intro d hd fuel hf
    cases d with
    | nil => rw [splitChunksGo_nil, splitChunksGo_nil]
    | cons x xs =>
      cases fuel with
      | zero => simp at hf
      | succ f =>
        have hlc : (x :: xs).length = xs.length + 1 := by simp
        rw [hlc] at hd hf
        have hdrop : ((x :: xs).drop size).length ≤ xs.length := by
          simp only [List.length_drop, List.length_cons]
          omega
        have e1 : splitChunksGo (f + 1) size (x :: xs) =
            (x :: xs).take size :: splitChunksGo f size ((x :: xs).drop size) := by
          simp [splitChunksGo]
        have e2 : splitChunksGo ((x :: xs).length) size (x :: xs) =
            (x :: xs).take size ::
              splitChunksGo xs.length size ((x :: xs).drop size) := by
          rw [hlc]
          simp [splitChunksGo]
        rw [e1, e2, ih ((x :: xs).drop size) (by omega) f (by omega),
          ih ((x :: xs).drop size) (by omega) xs.length (by omega)]

theorem splitChunks_cons {size : Nat} (hs : 0 < size) {data : List Nat}
    (hd : data ≠ []) :
    splitChunks size data =
      data.take size :: splitChunks size (data.drop size) := by
  cases data with
  | nil => exact absurd rfl hd
  | cons x xs =>
    show splitChunksGo (xs.length + 1) size (x :: xs) = _
    simp only [splitChunksGo]
    have hdrop : ((x :: xs).drop size).length ≤ xs.length := by
      simp [List.length_drop]
      omega
    rw [splitChunksGo_fuel size hs xs.length ((x :: xs).drop size) hdrop
      xs.length hdrop]
    simp [splitChunks]

theorem splitChunks_flatten (size : Nat) (hs : 0 < size) :
    ∀ (n : Nat) (data : List Nat), data.length ≤ n →
    (splitChunks size data).flatten = data := by
  intro n
  induction n with
  | zero =>
    intro data hd
    have hdn : data = [] := List.length_eq_zero.mp (Nat.le_zero.mp hd)
    subst hdn
    rfl
  | succ n ih =>
    intro data hd
    by_cases hdn : data = []
    · subst hdn; rfl
    · rw [splitChunks_cons hs hdn]
      have hlt : 0 < data.length := List.length_pos.mpr hdn
      rw [List.flatten_cons,
        ih (data.drop size) (by simp only [List.length_drop]; omega)]
      exact List.take_append_drop size data

theorem splitChunks_mem (size : Nat) (hs : 0 < size) :
    ∀ (n : Nat) (data : List Nat), data.length ≤ n →
    ∀ c ∈ splitChunks size data, c.length ≤ size ∧ c ≠ [] := by
  intro n
  induction n with
  | zero =>
    intro data hd c hc
    have hdn : data = [] := List.length_eq_zero.mp (Nat.le_zero.mp hd)
    subst hdn
    simp [splitChunks, splitChunksGo_nil] at hc
  | succ n ih =>
    intro data hd c hc
    by_cases hdn : data = []
    · subst hdn; simp [splitChunks, splitChunksGo_nil] at hc
    · rw [splitChunks_cons hs hdn] at hc
      have hlt : 0 < data.length := List.length_pos.mpr hdn
      cases hc with
      | head =>
        constructor
        · simp only [List.length_take]
          omega
        · have hpos : 0 < (data.take size).length := by
            simp only [List.length_take]
            omega
          exact List.length_pos.mp hpos
      | tail _ hm =>
        exact ih (data.drop size)
          (by simp only [List.length_drop]; omega) c hm

theorem flushGo_map (ct : Nat) :
    ∀ (cs : List (List Nat)) (acc : List Nat),
    flushGo ct acc (cs.map (fun c => PyMessage.mk ct c)) =
      some (acc ++ cs.flatten) := by
  intro cs
  induction cs with
  | nil => intro acc; simp [flushGo]
  | cons c rest ih =>
    intro acc
    simp only [List.map_cons, flushGo, ih]
    simp [List.append_assoc]

/-- C1: the `msg_sock` hooks after a wrapped node completes. Evaluating the
generate-then-post-send cycle of each mutation combinator on a concrete
socket shows that `fuzz_mac`, `fuzz_padding`, `fuzz_plaintext` and
`replace_plaintext` do restore their hook to the pre-wrap value, but
`fuzz_encrypted_message` does not: its restore step is a `setattr` with the
literal string `._recordSocket.send`, which leaves `_recordSocket.send`
equal to the fuzzing override, contradicting the claim that every wrapper's
override is reverted once the message has been transmitted. -/
theorem mutation_wrapper_hook_restore :
    (fuzz_mac_post_send (fuzz_mac_generate exMsgSock).2
        (fuzz_mac_generate exMsgSock).1).calculateMAC
      = exMsgSock.calculateMAC
    ∧ (fuzz_padding_post_send (fuzz_padding_generate exMsgSock).2
        (fuzz_padding_generate exMsgSock).1).addPadding
      = exMsgSock.addPadding
    ∧ (fuzz_plaintext_post_send (fuzz_plaintext_generate exMsgSock).2
        (fuzz_plaintext_generate exMsgSock).1).addPadding
      = exMsgSock.addPadding
    ∧ (replace_plaintext_post_send (replace_plaintext_generate exMsgSock).2
        (replace_plaintext_generate exMsgSock).1).addPadding
      = exMsgSock.addPadding
    ∧ (fuzz_encrypted_message_post_send
        (fuzz_encrypted_message_generate exMsgSock).2
        (fuzz_encrypted_message_generate exMsgSock).1).recordSocket.send
      = Hook.fuzzEncSendHook (Hook.base 2)
    ∧ (fuzz_encrypted_message_post_send
        (fuzz_encrypted_message_generate exMsgSock).2
        (fuzz_encrypted_message_generate exMsgSock).1).recordSocket.send
      ≠ exMsgSock.recordSocket.send := by
  decide

/-- C8: `ClientKeyExchangeGenerator.__init__` raises `ValueError` exactly
when both `p_as_share` and `p_1_as_share` are set; with at most one of the
two flags the construction succeeds. -/
theorem client_key_exchange_init_mutual_exclusion
    (premaster_secret : Option (List Nat)) (p_as_share p_1_as_share : Bool) :
    ClientKeyExchangeGenerator_init premaster_secret p_as_share p_1_as_share
        = none
      ↔ (p_as_share = true ∧ p_1_as_share = true) := by
  cases p_as_share <;> cases p_1_as_share <;>
    simp [ClientKeyExchangeGenerator_init]

/-- C3 counterexample: on a state whose key material holds a
`premaster_secret` entry, `ResetHandshakeHashes.process` leaves that entry
untouched, so the claim that the reset removes the premaster-secret entry
is false (the code removes `PSK secret` instead). -/
theorem reset_handshake_hashes_keeps_premaster :
    dictGet exState.key "premaster_secret" = some (KVal.bytes [9, 9])
    ∧ dictGet (ResetHandshakeHashes_process exState).key "premaster_secret"
      = some (KVal.bytes [9, 9]) := by
  decide

/-- C3 (amended): `ResetHandshakeHashes.process` clears the running
handshake transcript and removes the `PSK secret` and `DH shared secret`
entries from the key material, while every other entry — in particular the
resumption master secret and the premaster secret — is left unchanged. -/
theorem reset_handshake_hashes_frame (st : ConnectionState) :
    (ResetHandshakeHashes_process st).handshake_hashes = []
    ∧ dictGet (ResetHandshakeHashes_process st).key "PSK secret" = none
    ∧ dictGet (ResetHandshakeHashes_process st).key "DH shared secret" = none
    ∧ ∀ name, name ≠ "PSK secret" → name ≠ "DH shared secret" →
        dictGet (ResetHandshakeHashes_process st).key name
          = dictGet st.key name := by
  have hkey : (ResetHandshakeHashes_process st).key
      = dictPop (dictPop st.key "PSK secret") "DH shared secret" := rfl
  refine ⟨rfl, ?_, ?_, ?_⟩
  · rw [hkey, dictGet_dictPop_other _ _ _ (by decide), dictGet_dictPop_self]
  · rw [hkey, dictGet_dictPop_self]
  · intro name h1 h2
    rw [hkey, dictGet_dictPop_other _ _ _ h2, dictGet_dictPop_other _ _ _ h1]

theorem reset_handshake_hashes_frame_witness :
    ("resumption master secret" ≠ "PSK secret"
      ∧ "resumption master secret" ≠ "DH shared secret")
    ∧ dictGet (ResetHandshakeHashes_process exState).key
        "resumption master secret"
      = dictGet exState.key "resumption master secret" :=
  ⟨⟨by decide, by decide⟩,
    (reset_handshake_hashes_frame exState).2.2.2 "resumption master secret"
      (by decide) (by decide)⟩

/-- C7: `CopyVariables.process` fails loudly: whenever a requested name is
neither one of the three special connection attributes nor a defined entry
of `state.key` (i.e. `copyVarValue` yields `none`), the whole process
raises `ValueError` instead of appending a default; and whenever it
succeeds, every requested name was defined and its value is appended to
the log at the corresponding position. -/
theorem copy_variables_lookup (st : ConnectionState) (names : List String) :
    (∀ name, name ∈ names → copyVarValue st name = none →
      CopyVariables_process st names = none)
    ∧ (∀ out, CopyVariables_process st names = some out →
        out.length = names.length
        ∧ ∀ i name, names.get? i = some name →
            copyVarValue st name ≠ none
            ∧ out.get? i = copyVarValue st name) := by
  induction names with
  | nil =>
    constructor
    · intro name hmem
      simp at hmem
    · intro out hout
      simp only [CopyVariables_process, Option.some.injEq] at hout
      subst hout
      exact ⟨rfl, by intro i name hn; simp at hn⟩
  | cons n0 rest ih =>
    constructor
    · intro name hmem hnone
      rcases List.mem_cons.mp hmem with h | h
      · subst h
        simp only [CopyVariables_process, hnone]
      · cases hv : copyVarValue st n0 with
        | none => simp only [CopyVariables_process, hv]
        | some v =>
          simp only [CopyVariables_process, hv, ih.1 name h hnone,
            Option.map_none']
    · intro out hout
      simp only [CopyVariables_process] at hout
      cases hv : copyVarValue st n0 with
      | none => rw [hv] at hout; exact absurd hout (by simp)
      | some v =>
        rw [hv] at hout
        cases hrest : CopyVariables_process st rest with
        | none => rw [hrest] at hout; exact absurd hout (by simp)
        | some vs =>
          rw [hrest] at hout
          simp only [Option.map_some', Option.some.injEq] at hout
          subst hout
          obtain ⟨hlen, hpt⟩ := ih.2 vs hrest
          constructor
          · simp [hlen]
          · intro i name hn
            cases i with
            | zero =>
              simp only [List.get?] at hn
              obtain rfl := Option.some.inj hn
              exact ⟨by simp [hv], by simp [hv]⟩
            | succ k =>
              simp only [List.get?] at hn ⊢
              exact hpt k name hn

theorem copy_variables_lookup_witness :
    ("server write IV" ∈ ["server write IV"]
      ∧ copyVarValue exState "server write IV" = none)
    ∧ CopyVariables_process exState ["server write IV"] = none :=
  ⟨⟨by decide, by decide⟩,
    (copy_variables_lookup exState ["server write IV"]).1 "server write IV"
      (by decide) (by decide)⟩

theorem applyXors_spec (xors : List (Int × Nat)) : ∀ (data : List Nat),
    (∀ pm ∈ xors, pyIdx data.length pm.1 ≠ none) →
    (resolvedIdxs data.length xors).Nodup →
    ∃ out, applyXors data xors = some out ∧ out.length = data.length ∧
      ∀ j, j < data.length →
        out.get? j = (match lookupIdx data.length j xors with
          | some m => some (Nat.xor (data.getD j 0) m)
          | none => data.get? j) := by
  induction xors with
  | nil =>
    intro data _ _
    exact ⟨data, rfl, rfl, by intro j _; simp [lookupIdx]⟩
  | cons pm rest ih =>
    intro data hin hnd
    obtain ⟨p, m⟩ := pm
    have hp : pyIdx data.length p ≠ none := hin (p, m) (by simp)
    cases hpy : pyIdx data.length p with
    | none => exact absurd hpy hp
    | some j0 =>
      have hj0 : j0 < data.length := pyIdx_lt hpy
      have hres : resolvedIdxs data.length ((p, m) :: rest) =
          j0 :: resolvedIdxs data.length rest := by
        simp [resolvedIdxs, List.filterMap_cons, hpy]
      rw [hres] at hnd
      have hnotmem : j0 ∉ resolvedIdxs data.length rest :=
        (List.nodup_cons.mp hnd).1
      have hndr : (resolvedIdxs data.length rest).Nodup :=
        (List.nodup_cons.mp hnd).2
      have hlen : (data.set j0 (Nat.xor (data.getD j0 0) m)).length
          = data.length := by simp
      have hin2 : ∀ pm2 ∈ rest,
          pyIdx (data.set j0 (Nat.xor (data.getD j0 0) m)).length pm2.1
            ≠ none := by
        rw [hlen]
        exact fun pm2 hm => hin pm2 (List.mem_cons_of_mem _ hm)
      have hnd2 : (resolvedIdxs
          (data.set j0 (Nat.xor (data.getD j0 0) m)).length rest).Nodup := by
        rw [hlen]; exact hndr
      obtain ⟨out, hout, holen, hojs⟩ :=
        ih (data.set j0 (Nat.xor (data.getD j0 0) m)) hin2 hnd2
      refine ⟨out, ?_, ?_, ?_⟩
      · simp only [applyXors, hpy]
        exact hout
      · rw [holen, hlen]
      · intro j hj
        have hj2 : j < (data.set j0 (Nat.xor (data.getD j0 0) m)).length := by
          rw [hlen]; exact hj
        have hpt := hojs j hj2
        rw [hlen] at hpt
        simp only [lookupIdx]
        cases hlk : lookupIdx data.length j rest with
        | some w =>
          rw [hlk] at hpt
          have hjmem : j ∈ resolvedIdxs data.length rest := lookupIdx_mem hlk
          have hjne : j0 ≠ j := fun hc => hnotmem (hc ▸ hjmem)
          have hget : (data.set j0 (Nat.xor (data.getD j0 0) m)).get? j
              = data.get? j := by
            rw [list_get?_set]
            simp [hjne]
          have hgetD : (data.set j0 (Nat.xor (data.getD j0 0) m)).getD j 0
              = data.getD j 0 := by
            rw [list_getD_eq (data.set j0 (Nat.xor (data.getD j0 0) m)) j,
              hget, ← list_getD_eq]
          rw [hgetD] at hpt
          simpa using hpt
        | none =>
          rw [hlk] at hpt
          rw [hpt, list_get?_set]
          by_cases hjj : j0 = j
          · subst hjj
            simp [hpy, hj]
          · have hne : ¬ (pyIdx data.length p = some j) := by
              rw [hpy]
              exact fun hc => hjj (Option.some.inj hc)
            simp [hjj, hne]

theorem substitute_and_xor_none (d : List Nat) :
    substitute_and_xor d none none = some d := rfl

/-- C2: no-op faithfulness of the mutation combinators. With both mutation
dicts absent, the byte transformation each wrapper injects is the identity
on the bytes produced at its injection point (`fuzz_message` on the message
serialization, `fuzz_mac` on the MAC, `fuzz_padding` on the record padding,
`fuzz_plaintext` on the padded plaintext, `fuzz_encrypted_message` on the
framed record, `fuzz_pkcs1_padding` on the PKCS#1 padding — the latter even
returns the key object unmodified), so the transmitted bytes are
byte-identical to those of the unwrapped generator. The hypotheses state
the TLS padding contract of the collaborator method `fuzz_padding` wraps:
it appends a padding block whose last byte is one less than the block's
length. -/
theorem noop_empty_mutation_spec
    (data mac_bytes record_data plain : List Nat)
    (old_add_padding_fp old_add_padding_fpl old_pkcs1 : List Nat → List Nat)
    (blockSize numBytes_n : Nat) (pad : List Nat) (p : Nat)
    (hpad : old_add_padding_fp data = data ++ pad)
    (hlast : pad.getLast? = some p)
    (hplen : pad.length = p + 1) :
    fuzz_message_new_write data none none = some data
    ∧ fuzz_mac_new_calculate_mac mac_bytes none none = some mac_bytes
    ∧ fuzz_padding_new_add_padding old_add_padding_fp blockSize none none none
        data = some (old_add_padding_fp data)
    ∧ fuzz_plaintext_new_add_padding old_add_padding_fpl none none plain
        = some (old_add_padding_fpl plain)
    ∧ fuzz_encrypted_message_new_send record_data none none
        = some record_data
    ∧ fuzz_pkcs1_padding old_pkcs1 numBytes_n none none
        = fun bytes => some (old_pkcs1 bytes) := by
  refine ⟨rfl, rfl, ?_, rfl, rfl, rfl⟩
  have hgl : (data ++ pad).getLast? = some p := by
    rw [List.getLast?_append, hlast]
    rfl
  have hdl : (data ++ pad).length - (p + 1) = data.length := by
    simp [List.length_append, hplen]
  simp only [fuzz_padding_new_add_padding, hpad, hgl, hdl, List.drop_left,
    substitute_and_xor_none, Option.map_some']

theorem noop_empty_mutation_spec_witness :
    ((fun d : List Nat => d ++ [0]) [1, 2] = [1, 2] ++ [0]
      ∧ List.getLast? [0] = some 0
      ∧ List.length [0] = 0 + 1)
    ∧ (fuzz_message_new_write [1, 2] none none = some [1, 2]
      ∧ fuzz_mac_new_calculate_mac [3] none none = some [3]
      ∧ fuzz_padding_new_add_padding (fun d => d ++ [0]) 16 none none none
          [1, 2] = some ((fun d : List Nat => d ++ [0]) [1, 2])
      ∧ fuzz_plaintext_new_add_padding (fun d => d) none none [5]
          = some ((fun d : List Nat => d) [5])
      ∧ fuzz_encrypted_message_new_send [4] none none = some [4]
      ∧ fuzz_pkcs1_padding (fun d => d) 5 none none
          = fun bytes => some ((fun d : List Nat => d) bytes)) :=
  ⟨⟨rfl, rfl, rfl⟩,
    noop_empty_mutation_spec [1, 2] [3] [4] [5] (fun d => d ++ [0])
      (fun d => d) (fun d => d) 16 5 [0] 0 rfl rfl rfl⟩

/-- C9: pointwise semantics of `substitute_and_xor` on a non-empty byte
string, for mutation dicts whose offsets are all in range (and, for the xor
dict, resolve to pairwise distinct positions, as dict keys do). A negative
offset `k` with `-len ≤ k < 0` addresses position `len + k`; a byte whose
position is hit by a substitution is replaced, a byte hit by an xor entry is
xored with the mask (after any substitution at the same position), and every
byte at a position hit by neither dict is unchanged. -/
theorem substitute_and_xor_semantics (data : List Nat)
    (subs xors : List (Int × Nat))
    (_hne : data ≠ [])
    (hs : ∀ pv ∈ subs, pyIdx data.length pv.1 ≠ none)
    (hx : ∀ pm ∈ xors, pyIdx data.length pm.1 ≠ none)
    (hnx : (resolvedIdxs data.length xors).Nodup) :
    (∀ k : Int, -(data.length : Int) ≤ k → k < 0 →
      pyIdx data.length k = some ((data.length : Int) + k).toNat)
    ∧ ∃ out, substitute_and_xor data (some subs) (some xors) = some out
        ∧ out.length = data.length
        ∧ ∀ j, j < data.length →
            out.get? j = (match lookupIdx data.length j subs,
                lookupIdx data.length j xors with
              | some v, some m => some (Nat.xor v m)
              | some v, none => some v
              | none, some m => some (Nat.xor (data.getD j 0) m)
              | none, none => data.get? j) := by
  constructor
  · intro k h1 h2
    exact pyIdx_neg h1 h2
  · obtain ⟨d1, hd1, hd1len, hd1pt⟩ := applySubs_spec subs data hs
    have hx2 : ∀ pm ∈ xors, pyIdx d1.length pm.1 ≠ none := by
      rw [hd1len]; exact hx
    have hnx2 : (resolvedIdxs d1.length xors).Nodup := by
      rw [hd1len]; exact hnx
    obtain ⟨out, hout, holen, hopt⟩ := applyXors_spec xors d1 hx2 hnx2
    refine ⟨out, ?_, ?_, ?_⟩
    · simp only [substitute_and_xor, hd1]
      exact hout
    · rw [holen, hd1len]
    · intro j hj
      have hj1 : j < d1.length := by rw [hd1len]; exact hj
      have h1 := hopt j hj1
      rw [hd1len] at h1
      have h2 := hd1pt j hj
      cases hlx : lookupIdx data.length j xors with
      | none =>
        rw [hlx] at h1
        rw [h1, h2]
        cases hls : lookupIdx data.length j subs <;> simp
      | some m =>
        rw [hlx] at h1
        have hgd : d1.getD j 0 = (match lookupIdx data.length j subs with
            | some v => v
            | none => data.getD j 0) := by
          rw [list_getD_eq, h2]
          cases hls : lookupIdx data.length j subs
          · simp [← list_getD_eq]
          · simp
        rw [h1, hgd]
        cases hls : lookupIdx data.length j subs <;> simp

theorem substitute_and_xor_semantics_witness :
    (([10, 20, 30] : List Nat) ≠ []
      ∧ (∀ pv ∈ [((-1 : Int), 99)], pyIdx 3 pv.1 ≠ none)
      ∧ (∀ pm ∈ [((0 : Int), 5)], pyIdx 3 pm.1 ≠ none)
      ∧ (resolvedIdxs 3 [((0 : Int), 5)]).Nodup)
    ∧ ((∀ k : Int, -((3 : Nat) : Int) ≤ k → k < 0 →
          pyIdx 3 k = some (((3 : Nat) : Int) + k).toNat)
      ∧ ∃ out, substitute_and_xor [10, 20, 30] (some [((-1 : Int), 99)])
            (some [((0 : Int), 5)]) = some out
          ∧ out.length = 3
          ∧ ∀ j, j < 3 →
              out.get? j = (match lookupIdx 3 j [((-1 : Int), 99)],
                  lookupIdx 3 j [((0 : Int), 5)] with
                | some v, some m => some (Nat.xor v m)
                | some v, none => some v
                | none, some m =>
                    some (Nat.xor (([10, 20, 30] : List Nat).getD j 0) m)
                | none, none => ([10, 20, 30] : List Nat).get? j)) :=
  ⟨⟨by decide, by decide, by decide, by decide⟩,
    substitute_and_xor_semantics [10, 20, 30] [((-1 : Int), 99)]
      [((0 : Int), 5)] (by decide) (by decide) (by decide) (by decide)⟩

/-- C10 counterexample: with payload `[0]` and fragment size `1` the whole
payload fits into the first fragment, `split_message` leaves no remaining
fragments, and `FlushMessageList.generate` applied to the empty remainder
raises `IndexError` (`pop` from an empty list) instead of yielding a
message, so the round-trip claim fails as universally stated. -/
theorem split_flush_single_fragment :
    split_message_generate 1 (PyMessage.mk 22 [0]) []
      = some (PyMessage.mk 22 [0], [])
    ∧ flushMessageList_generate [] = none := by
  decide

/-- C10 (amended): round trip of message splitting for payloads longer than
the fragment size (so that at least one fragment remains for the flush).
Starting from an empty fragment list, `split_message` cuts the payload into
consecutive fragments of at most `size` bytes carrying the original content
type, returns the first fragment and leaves the rest in the list;
`FlushMessageList.generate` on the rest yields a single message of the same
content type whose payload is their concatenation, and the first fragment's
payload followed by the flushed payload is exactly the original payload. -/
theorem split_flush_round_trip (ct : Nat) (data : List Nat) (size : Nat)
    (hd : data ≠ []) (hs : 0 < size) (hlen : size < data.length) :
    ∃ first rest, split_message_generate size (PyMessage.mk ct data) []
        = some (first, rest)
      ∧ first.contentType = ct
      ∧ first.data = data.take size
      ∧ (∀ m ∈ rest, m.contentType = ct ∧ m.data.length ≤ size)
      ∧ flushMessageList_generate rest
          = some (PyMessage.mk ct (data.drop size))
      ∧ first.data ++ data.drop size = data := by
  have hsc := splitChunks_cons hs hd
  have hdropne : data.drop size ≠ [] := by
    intro hc
    have := congrArg List.length hc
    simp only [List.length_drop, List.length_nil] at this
    omega
  have hsc2 := splitChunks_cons hs hdropne
  refine ⟨PyMessage.mk ct (data.take size),
    (splitChunks size (data.drop size)).map (fun c => PyMessage.mk ct c),
    ?_, rfl, rfl, ?_, ?_, ?_⟩
  · simp only [split_message_generate, hsc, List.map_cons, List.nil_append]
  · intro m hm
    simp only [List.mem_map] at hm
    obtain ⟨c, hc, rfl⟩ := hm
    obtain ⟨hle, _⟩ := splitChunks_mem size hs (data.drop size).length
      (data.drop size) le_rfl c hc
    exact ⟨rfl, hle⟩
  · rw [hsc2, List.map_cons]
    simp only [flushMessageList_generate, flushGo_map, Option.map_some']
    have hflat : (splitChunks size ((data.drop size).drop size)).flatten
        = (data.drop size).drop size :=
      splitChunks_flatten size hs ((data.drop size).drop size).length
        ((data.drop size).drop size) le_rfl
    rw [hflat, List.take_append_drop]
  · exact List.take_append_drop size data

theorem split_flush_round_trip_witness :
    (([1, 2, 3] : List Nat) ≠ [] ∧ 0 < 2 ∧ 2 < ([1, 2, 3] : List Nat).length)
    ∧ ∃ first rest, split_message_generate 2 (PyMessage.mk 22 [1, 2, 3]) []
        = some (first, rest)
      ∧ first.contentType = 22
      ∧ first.data = ([1, 2, 3] : List Nat).take 2
      ∧ (∀ m ∈ rest, m.contentType = 22 ∧ m.data.length ≤ 2)
      ∧ flushMessageList_generate rest
          = some (PyMessage.mk 22 (([1, 2, 3] : List Nat).drop 2))
      ∧ first.data ++ ([1, 2, 3] : List Nat).drop 2 = [1, 2, 3] :=
  ⟨⟨by decide, by decide, by decide⟩,
    split_flush_round_trip 22 [1, 2, 3] 2 (by decide) (by decide) (by decide)⟩

/-- C5: effect of `ChangeCipherSpecGenerator.post_send` on the encryption
state. With `version >= (3, 4)` or a fake CCS the method returns at once and
the state is completely unchanged. Otherwise the write state switches to
the pending (newly derived) cipher state — one `changeWriteState` call —
and, unless the session is resuming, the master secret is first derived and
stored and the pending cipher states are computed; when resuming, the key
material is not touched (the pending states were derived on receipt of the
server CCS). -/
theorem ccs_post_send_write_state (st : ConnectionState)
    (ems_param : Option Bool) (fake : Bool) :
    ((verGE st.version (3, 4) || fake) = true →
      ChangeCipherSpecGenerator_post_send ems_param fake st = some st)
    ∧ ((verGE st.version (3, 4) || fake) = false → st.resuming = true →
      ∃ st2, ChangeCipherSpecGenerator_post_send ems_param fake st = some st2
        ∧ st2.msg_sock.writeStateChanges
            = st.msg_sock.writeStateChanges + 1
        ∧ st2.key = st.key)
    ∧ ((verGE st.version (3, 4) || fake) = false → st.resuming = false →
      ∀ pms, dictGet st.key "premaster_secret" = some pms →
      ∃ st2, ChangeCipherSpecGenerator_post_send ems_param fake st = some st2
        ∧ st2.msg_sock.writeStateChanges
            = st.msg_sock.writeStateChanges + 1
        ∧ st2.msg_sock.pendingStatesSet = true
        ∧ dictGet st2.key "master_secret" ≠ none) := by
  refine ⟨?_, ?_, ?_⟩
  · intro h
    simp [ChangeCipherSpecGenerator_post_send, h]
  · intro h hres
    refine ⟨ccsFinish { st with msg_sock :=
      { st.msg_sock with encryptThenMAC := st.encrypt_then_mac } },
      ?_, ?_, ?_⟩
    · simp [ChangeCipherSpecGenerator_post_send, h, hres]
    · by_cases hp : st.peer_record_size_limit ≠ 0 <;>
        simp [ccsFinish, changeWriteState, hp]
    · by_cases hp : st.peer_record_size_limit ≠ 0 <;>
        simp [ccsFinish, changeWriteState, hp]
  · intro h hres pms hpms
    refine ⟨ccsFinish (calc_pending_states
      { st with
        msg_sock := { st.msg_sock with encryptThenMAC := st.encrypt_then_mac },
        key := dictSet st.key "master_secret"
          (if ems_param.getD st.extended_master_secret then
            KVal.calcExtendedMasterSecret st.version st.cipher pms
              (ccsSessionHash st)
          else
            KVal.calcMasterSecret st.version st.cipher pms st.client_random
              st.server_random) }), ?_, ?_, ?_, ?_⟩
    · simp [ChangeCipherSpecGenerator_post_send, ccsSessionHash, h, hres,
        hpms]
    · by_cases hp : st.peer_record_size_limit ≠ 0 <;>
        simp [ccsFinish, changeWriteState, calc_pending_states, hp]
    · by_cases hp : st.peer_record_size_limit ≠ 0 <;>
        simp [ccsFinish, changeWriteState, calc_pending_states, hp]
    · by_cases hp : st.peer_record_size_limit ≠ 0 <;>
        simp [ccsFinish, changeWriteState, calc_pending_states, hp,
          dictGet_dictSet_self]

theorem ccs_post_send_write_state_witness :
    ((verGE exState.version (3, 4) || false) = false
      ∧ exState.resuming = false
      ∧ dictGet exState.key "premaster_secret" = some (KVal.bytes [9, 9]))
    ∧ ∃ st2, ChangeCipherSpecGenerator_post_send none false exState = some st2
        ∧ st2.msg_sock.writeStateChanges
            = exState.msg_sock.writeStateChanges + 1
        ∧ st2.msg_sock.pendingStatesSet = true
        ∧ dictGet st2.key "master_secret" ≠ none :=
  ⟨⟨by decide, by decide, by decide⟩,
    (ccs_post_send_write_state exState none false).2.2 (by decide) (by decide)
      (KVal.bytes [9, 9]) (by decide)⟩

/-- C4: master-secret derivation by `ChangeCipherSpecGenerator.post_send`
below TLS 1.3 with no resumption, after the Client Key Exchange and an
intervening Certificate Verify message have been sent. With
extended-master-secret negotiated the collaborator receives the premaster
secret together with the transcript hash snapshot taken by
`ClientKeyExchangeGenerator.post_send` — the transcript up to and including
the Client Key Exchange, excluding the Certificate Verify bytes; without it
the collaborator receives the premaster secret and the client and server
randoms. -/
theorem ccs_master_secret_derivation (st0 : ConnectionState)
    (cke_bytes cv_bytes : List Nat) (pms : KVal) (ems_param : Option Bool)
    (hver : verGE st0.version (3, 4) = false)
    (hres : st0.resuming = false)
    (hpms : dictGet st0.key "premaster_secret" = some pms) :
    (ems_param.getD st0.extended_master_secret = true →
      ∃ st2, ChangeCipherSpecGenerator_post_send ems_param false
          (HandshakeProtocolMessageGenerator_post_send cv_bytes
            (ClientKeyExchangeGenerator_post_send cke_bytes st0))
        = some st2
        ∧ dictGet st2.key "master_secret"
          = some (KVal.calcExtendedMasterSecret st0.version st0.cipher pms
              (st0.handshake_hashes ++ [cke_bytes])))
    ∧ (ems_param.getD st0.extended_master_secret = false →
      ∃ st2, ChangeCipherSpecGenerator_post_send ems_param false
          (HandshakeProtocolMessageGenerator_post_send cv_bytes
            (ClientKeyExchangeGenerator_post_send cke_bytes st0))
        = some st2
        ∧ dictGet st2.key "master_secret"
          = some (KVal.calcMasterSecret st0.version st0.cipher pms
              st0.client_random st0.server_random)) := by
  constructor
  · intro hems
    cases hE : ChangeCipherSpecGenerator_post_send ems_param false
        (HandshakeProtocolMessageGenerator_post_send cv_bytes
          (ClientKeyExchangeGenerator_post_send cke_bytes st0)) with
    | none =>
      exfalso
      revert hE
      simp [ChangeCipherSpecGenerator_post_send,
        HandshakeProtocolMessageGenerator_post_send,
        ClientKeyExchangeGenerator_post_send, hver, hres, hpms]
    | some st2 =>
      refine ⟨st2, rfl, ?_⟩
      simp only [ChangeCipherSpecGenerator_post_send,
        HandshakeProtocolMessageGenerator_post_send,
        ClientKeyExchangeGenerator_post_send, ccsSessionHash, hver, hres,
        hpms, hems, Bool.or_false, Bool.false_eq_true, if_false,
        Option.getD_some] at hE
      obtain rfl := Option.some.inj hE
      by_cases hp : st0.peer_record_size_limit ≠ 0 <;>
        simp [ccsFinish, changeWriteState, calc_pending_states, hp,
          dictGet_dictSet_self]
  · intro hems
    cases hE : ChangeCipherSpecGenerator_post_send ems_param false
        (HandshakeProtocolMessageGenerator_post_send cv_bytes
          (ClientKeyExchangeGenerator_post_send cke_bytes st0)) with
    | none =>
      exfalso
      revert hE
      simp [ChangeCipherSpecGenerator_post_send,
        HandshakeProtocolMessageGenerator_post_send,
        ClientKeyExchangeGenerator_post_send, hver, hres, hpms]
    | some st2 =>
      refine ⟨st2, rfl, ?_⟩
      simp only [ChangeCipherSpecGenerator_post_send,
        HandshakeProtocolMessageGenerator_post_send,
        ClientKeyExchangeGenerator_post_send, ccsSessionHash, hver, hres,
        hpms, hems, Bool.or_false, Bool.false_eq_true, if_false,
        Option.getD_some] at hE
      obtain rfl := Option.some.inj hE
      by_cases hp : st0.peer_record_size_limit ≠ 0 <;>
        simp [ccsFinish, changeWriteState, calc_pending_states, hp,
          dictGet_dictSet_self]

theorem ccs_master_secret_derivation_witness :
    (verGE exState.version (3, 4) = false
      ∧ exState.resuming = false
      ∧ dictGet exState.key "premaster_secret" = some (KVal.bytes [9, 9])
      ∧ (none : Option Bool).getD exState.extended_master_secret = true)
    ∧ ∃ st2, ChangeCipherSpecGenerator_post_send none false
          (HandshakeProtocolMessageGenerator_post_send [2]
            (ClientKeyExchangeGenerator_post_send [1] exState))
        = some st2
        ∧ dictGet st2.key "master_secret"
          = some (KVal.calcExtendedMasterSecret exState.version exState.cipher
              (KVal.bytes [9, 9]) (exState.handshake_hashes ++ [[1]])) :=
  ⟨⟨by decide, by decide, by decide, by decide⟩,
    (ccs_master_secret_derivation exState [1] [2] (KVal.bytes [9, 9]) none
      (by decide) (by decide) (by decide)).1 (by decide)⟩

/-- C6: effect of `FinishedGenerator.post_send` on the encryption state.
Above TLS 1.2 (i.e. in TLS 1.3), after the Finished bytes have been hashed
into the transcript, the record-layer write state switches to the
application traffic keys (one `changeWriteState` call) and the resumption
master secret is derived from the stored `master secret` over the updated
transcript and stored; at TLS 1.2 and below the method returns without
touching `msg_sock`, leaving the write encryption state unchanged. -/
theorem finished_post_send_states (st : ConnectionState)
    (msg_bytes : List Nat) :
    (verLE st.version (3, 3) = false →
      ∀ secret, dictGet st.key "master secret" = some secret →
      ∃ st2, FinishedGenerator_post_send msg_bytes st = some st2
        ∧ st2.msg_sock.writeStateChanges
            = st.msg_sock.writeStateChanges + 1
        ∧ dictGet st2.key "resumption master secret"
          = some (KVal.deriveSecret secret "res master"
              (st.handshake_hashes ++ [msg_bytes]) st.prf_name))
    ∧ (verLE st.version (3, 3) = true →
      ∃ st2, FinishedGenerator_post_send msg_bytes st = some st2
        ∧ st2.msg_sock = st.msg_sock) := by
  constructor
  · intro hver secret hsec
    cases hE : FinishedGenerator_post_send msg_bytes st with
    | none =>
      exfalso
      revert hE
      simp [FinishedGenerator_post_send,
        HandshakeProtocolMessageGenerator_post_send, hver, hsec]
    | some st2 =>
      refine ⟨st2, rfl, ?_, ?_⟩ <;>
      · simp only [FinishedGenerator_post_send,
          HandshakeProtocolMessageGenerator_post_send, hver, hsec,
          Bool.false_eq_true, if_false] at hE
        obtain rfl := Option.some.inj hE
        simp [changeWriteState, dictGet_dictSet_self]
  · intro hver
    refine ⟨{ (HandshakeProtocolMessageGenerator_post_send msg_bytes st) with
      resuming := false }, ?_, rfl⟩
    simp [FinishedGenerator_post_send,
      HandshakeProtocolMessageGenerator_post_send, hver]

theorem finished_post_send_states_witness :
    (verLE exState13.version (3, 3) = false
      ∧ dictGet exState13.key "master secret" = some (KVal.bytes [6]))
    ∧ ∃ st2, FinishedGenerator_post_send [9] exState13 = some st2
        ∧ st2.msg_sock.writeStateChanges
            = exState13.msg_sock.writeStateChanges + 1
        ∧ dictGet st2.key "resumption master secret"
          = some (KVal.deriveSecret (KVal.bytes [6]) "res master"
              (exState13.handshake_hashes ++ [[9]]) exState13.prf_name) :=
  ⟨⟨by decide, by decide⟩,
    (finished_post_send_states exState13 [9]).1 (by decide) (KVal.bytes [6])
      (by decide)⟩
